import Mathlib

/-!
Verification of the xrpl-rust binary codec core (crate `xrpl`) against its
natural-language specification.  The definitions below are a shallow embedding
of the Rust source: byte buffers are `List Nat` (each entry one byte),
machine-integer wrap-around is made explicit with `% 2^64` style arithmetic,
fallible Rust functions return `Except`, and Rust code that can panic returns a
`RustRes` value with a distinguished `panicked` outcome.
-/

namespace XRPLCodec

/-- Outcome of a Rust computation that may return an error value or panic.
`fail` is the `Err` branch of a `Result`; `panicked` models a Rust panic
(out-of-range slice index, failed `expect`, ...), which is not an error value
the caller can observe. -/
inductive RustRes (e a : Type) where
  | ok : a → RustRes e a
  | fail : e → RustRes e a
  | panicked : RustRes e a
deriving DecidableEq, Repr

/-- Error variants of `XRPLBinaryCodecException` used by the byte-cursor code
(binary_wrappers.rs). -/
inductive PErr where
  | skipOverflow (max found : Nat)
  | lengthPfxRange (min max : Nat)
  | invalidReadFromBytes
deriving DecidableEq, Repr

/-- Error variants raised by `_encode_variable_length_prefix`
(binary_wrappers.rs). -/
inductive EncErr where
  | tryFromIntErr
  | vlTooLarge (max : Nat)
deriving DecidableEq, Repr

/-! Constants of `core/binarycodec/utils.rs`.  Modelled from the spec: that
file is not under src/; the values are fixed by the spec's length-prefix table
(thresholds 192 / 12480 / 918744, two-byte first-byte range 193..240,
three-byte first-byte range 241..254). -/

def MAX_SINGLE_BYTE_LENGTH : Nat := 192
def MAX_DOUBLE_BYTE_LENGTH : Nat := 12481
def MAX_LENGTH_VALUE : Nat := 918744
def MAX_SECOND_BYTE_VALUE : Nat := 240
def MAX_BYTE_VALUE : Nat := 256
def MAX_DOUBLE_BYTE_VALUE : Nat := 65536

/-- Embeds `_encode_variable_length_prefix` (binary_wrappers.rs lines 49-90).
The `u8::try_from` conversions of the source are kept as explicit range checks
(they can never fire for in-range lengths). -/
def encodeVariableLengthPfx (length : Nat) : Except EncErr (List Nat) :=
  if length ≤ MAX_SINGLE_BYTE_LENGTH then
    .ok [length]
  else if length < MAX_DOUBLE_BYTE_LENGTH then
    let bLength := length - (MAX_SINGLE_BYTE_LENGTH + 1)
    let valA := (bLength >>> 8) + (MAX_SINGLE_BYTE_LENGTH + 1)
    let valB := bLength &&& 0xFF
    if valA ≥ 256 ∨ valB ≥ 256 then .error .tryFromIntErr
    else .ok [valA, valB]
  else if length ≤ MAX_LENGTH_VALUE then
    let bLength := length - MAX_DOUBLE_BYTE_LENGTH
    let valA := (MAX_SECOND_BYTE_VALUE + 1) + (bLength >>> 16)
    let valB := (bLength >>> 8) &&& 0xFF
    let valC := bLength &&& 0xFF
    if valA ≥ 256 ∨ valB ≥ 256 ∨ valC ≥ 256 then .error .tryFromIntErr
    else .ok [valA, valB, valC]
  else
    .error (.vlTooLarge MAX_LENGTH_VALUE)

/-- Embeds `BinaryParser::skip_bytes` (binary_wrappers.rs lines 477-488): an
out-of-range count is reported through the `UnexpectedParserSkipOverflow`
error branch. -/
def skipBytes (buf : List Nat) (n : Nat) : Except PErr (List Nat) :=
  if buf.length < n then .error (.skipOverflow buf.length n)
  else .ok (buf.drop n)

/-- Embeds `BinaryParser::read` (binary_wrappers.rs lines 490-495).  The source
evaluates the slice `self.0[..n]` before calling `skip_bytes`, so when `n`
exceeds the remaining length the slice indexing panics and `skip_bytes`'s
error branch is never reached. -/
def parserRead (buf : List Nat) (n : Nat) : RustRes PErr (List Nat × List Nat) :=
  if buf.length < n then .panicked
  else
    match skipBytes buf n with
    | .error e => .fail e
    | .ok rest => .ok (buf.take n, rest)

/-- Embeds `BinaryParser::read_uint8` (binary_wrappers.rs lines 497-502). -/
def readUint8 (buf : List Nat) : RustRes PErr (Nat × List Nat) :=
  match parserRead buf 1 with
  | .panicked => .panicked
  | .fail e => .fail e
  | .ok (bytes, rest) =>
    match bytes with
    | [b] => .ok (b, rest)
    | _ => .fail .invalidReadFromBytes

/-- Embeds `BinaryParser::read_length_prefix` (binary_wrappers.rs lines
526-560): a first byte of 1..=192 is the length itself, 193..=240 starts a
two-byte form, 241..=254 a three-byte form, and anything larger is rejected
with `UnexpectedLengthPrefixRange`. -/
def readLengthPfx (buf : List Nat) : RustRes PErr (Nat × List Nat) :=
  match readUint8 buf with
  | .panicked => .panicked
  | .fail e => .fail e
  | .ok (byte1, r1) =>
    if byte1 ≤ MAX_SINGLE_BYTE_LENGTH then .ok (byte1, r1)
    else if byte1 ≤ MAX_SECOND_BYTE_VALUE then
      match readUint8 r1 with
      | .panicked => .panicked
      | .fail e => .fail e
      | .ok (byte2, r2) =>
        .ok ((MAX_SINGLE_BYTE_LENGTH + 1)
          + (byte1 - (MAX_SINGLE_BYTE_LENGTH + 1)) * MAX_BYTE_VALUE + byte2, r2)
    else if byte1 ≤ 254 then
      match readUint8 r1 with
      | .panicked => .panicked
      | .fail e => .fail e
      | .ok (byte2, r2) =>
        match readUint8 r2 with
        | .panicked => .panicked
        | .fail e => .fail e
        | .ok (byte3, r3) =>
          .ok (MAX_DOUBLE_BYTE_LENGTH
            + (byte1 - (MAX_SECOND_BYTE_VALUE + 1)) * MAX_DOUBLE_BYTE_VALUE
            + byte2 * MAX_BYTE_VALUE + byte3, r3)
    else .fail (.lengthPfxRange 1 3)

/-- Embeds `Amount::from_parser` (amount.rs lines 202-217).  The source picks
the byte count by matching on whether `peek()` returned `Some`, not on the
first byte's high bit: any non-empty buffer reads 8 bytes, and only an empty
buffer selects the 48-byte issued-currency branch. -/
def amountFromParser (buf : List Nat) : RustRes PErr (List Nat × List Nat) :=
  let numBytes : Nat :=
    match buf.head? with
    | none => 48
    | some _ => 8
  parserRead buf numBytes

/-! Issued-currency amount serialization (core/types/amount.rs). -/

/-- Model of a `rust_decimal::Decimal` as produced by parsing a decimal
string: `mantissa` is the signed integer mantissa (`Decimal::mantissa`,
an `i128`), `scale` the number of fractional digits (`Decimal::scale`), so the
value is `mantissa * 10 ^ (-scale)`. -/
structure DecimalM where
  mantissa : Int
  scale : Nat
deriving DecidableEq, Repr

/-- Model of the private `IssuedCurrency` struct of amount.rs: a decimal
value, 20 currency-code bytes and 20 issuer account-id bytes. -/
structure IssuedCurrencyM where
  value : DecimalM
  currency : List Nat
  issuer : List Nat
deriving DecidableEq, Repr

/-- Error variants of `XRPRangeException` raised by the amount serializers
(amount.rs). -/
inductive RangeErr where
  | icOverflow (max found : Nat)
  | invalidValue
deriving DecidableEq, Repr

/-- Wrap-around modulus of the source's `u64` exponent variable. -/
def U64MOD : Nat := 2 ^ 64

/-- Release-mode `u64` decrement: `exp -= 1` wraps modulo `2 ^ 64`. -/
def u64Sub1 (x : Nat) : Nat := (x + (U64MOD - 1)) % U64MOD

/-- Truncating cast `u64 -> i32` (`exp as i32` in the source): keep the low 32
bits and reinterpret them as two's complement. -/
def i32OfU64 (x : Nat) : Int :=
  let low : Nat := x % 2 ^ 32
  if low < 2 ^ 31 then (low : Int) else (low : Int) - 2 ^ 32

/-- Decidable equality for `Except`, so that concrete runs of the embedded
codec functions can be checked by `decide`. -/
instance exceptDecEq {e a : Type} [DecidableEq e] [DecidableEq a] :
    DecidableEq (Except e a) := fun x y =>
  match x, y with
  | .error u, .error v =>
    if h : u = v then .isTrue (congrArg Except.error h)
    else .isFalse fun hh => h (Except.error.inj hh)
  | .ok u, .ok v =>
    if h : u = v then .isTrue (congrArg Except.ok h)
    else .isFalse fun hh => h (Except.ok.inj hh)
  | .error _, .ok _ => .isFalse fun hh => Except.noConfusion hh
  | .ok _, .error _ => .isFalse fun hh => Except.noConfusion hh

/-- Digit-stripping helper for `verifyValidICValue`: remove trailing decimal
zeros of the mantissa (`Decimal::normalize`). -/
def stripTrailingZeros : Nat → Nat → Int → Nat × Int
  | 0, m, e => (m, e)
  | f + 1, m, e =>
    if m % 10 = 0 ∧ m ≠ 0 then stripTrailingZeros f (m / 10) (e + 1) else (m, e)

/-- Mathematical normalization helper for `verifyValidICValue`: scale the
(positive) mantissa up into `[10^15, ...)`. -/
def normUpMath : Nat → Nat → Int → Nat × Int
  | 0, m, e => (m, e)
  | f + 1, m, e =>
    if m < 10 ^ 15 then normUpMath f (m * 10) (e - 1) else (m, e)

/-- Mathematical normalization helper for `verifyValidICValue`: scale the
mantissa down into `(..., 10^16 - 1]`. -/
def normDownMath : Nat → Nat → Int → Nat × Int
  | 0, m, e => (m, e)
  | f + 1, m, e =>
    if 10 ^ 16 - 1 < m then normDownMath f (m / 10) (e + 1) else (m, e)

/-- Modelled from the spec: `verify_valid_ic_value` of utils/xrpl_conversion.rs
is not under src/.  Per the spec (sections 3 and 7) an issued-currency value is
valid when it is zero, or when it has at most 16 significant decimal digits and
its normalized exponent lies in the representable range [-96, 80]. -/
def verifyValidICValue (d : DecimalM) : Bool :=
  if d.mantissa = 0 then true
  else
    let stripped := stripTrailingZeros 64 d.mantissa.natAbs (-(d.scale : Int))
    let up := normUpMath 128 stripped.1 stripped.2
    let norm := normDownMath 64 up.1 up.2
    decide (stripped.1 < 10 ^ 16 ∧ -96 ≤ norm.2 ∧ norm.2 ≤ 80)

/-- Fuel bound for the embedded normalization loops of
`_serialize_issued_currency_value`.  The source's first loop decrements the
`u64` exponent once per iteration and exits as soon as its 32-bit view drops
to -96 or below, which happens within `2 ^ 32 + 192` decrements from any start,
so `2 ^ 33` iterations strictly dominate every run of either source loop. -/
def icFuel : Nat := 2 ^ 33

/-- Embeds the first normalization loop of `_serialize_issued_currency_value`
(amount.rs lines 71-74): multiply the mantissa by 10 and decrement the `u64`
exponent (wrapping) while the mantissa is below `10 ^ 15` and the exponent's
`i32` view exceeds the minimum exponent -96. -/
def icLoopUp : Nat → Int → Nat → Int × Nat
  | 0, m, e => (m, e)
  | f + 1, m, e =>
    if m < 10 ^ 15 ∧ -96 < i32OfU64 e then icLoopUp f (m * 10) (u64Sub1 e)
    else (m, e)

/-- Embeds the second normalization loop of `_serialize_issued_currency_value`
(amount.rs lines 76-86): while the mantissa exceeds `10 ^ 16 - 1`, fail with
`UnexpectedICAmountOverflow` when the `u64` exponent is at least 80, otherwise
divide the mantissa by 10 (truncating `i128` division) and increment the
exponent. -/
def icLoopDown : Nat → Int → Nat → Except RangeErr (Int × Nat)
  | 0, m, e => .ok (m, e)
  | f + 1, m, e =>
    if (10 ^ 16 - 1 : Int) < m then
      if 80 ≤ e then .error (.icOverflow 80 e)
      else icLoopDown f (Int.tdiv m 10) (e + 1)
    else .ok (m, e)

/-- Big-endian bytes of a (nonnegative) `i128` value, as produced by
`i128::to_be_bytes`: sixteen bytes. -/
def i128ToBeBytes (n : Nat) : List Nat :=
  (List.range 16).map fun i => (n >>> ((15 - i) * 8)) &&& 0xFF

/-- Embeds `_serialize_issued_currency_value` (amount.rs lines 61-112).  Note
two properties inherited from the source: the exponent variable is a `u64`
initialized with `Decimal::scale()` (the negated decimal exponent) and
decremented with wrapping arithmetic, and the returned buffer is the sixteen
`i128` big-endian bytes of `serial`. -/
def serializeICValue (d : DecimalM) : Except RangeErr (List Nat) :=
  if verifyValidICValue d = false then .error .invalidValue
  else if d.mantissa = 0 then .ok (i128ToBeBytes (2 ^ 63))
  else
    let p1 := icLoopUp icFuel d.mantissa d.scale
    match icLoopDown icFuel p1.1 p1.2 with
    | .error e => .error e
    | .ok p2 =>
      let m2 := p2.1
      let exp2 := p2.2
      if i32OfU64 exp2 < -96 ∨ m2 < (10 ^ 15 : Int) then
        .ok (i128ToBeBytes (2 ^ 63))
      else if 80 < exp2 ∨ (10 ^ 16 - 1 : Int) < m2 then
        .error (.icOverflow 80 exp2)
      else
        let pos : Bool := decide (0 ≤ d.mantissa)
        let serial : Nat :=
          Nat.lor
            (Nat.lor
              (Nat.lor (2 ^ 63) (if pos then 2 ^ 62 else 0))
              ((((exp2 + 97) % U64MOD) <<< 54) % U64MOD))
            m2.toNat
        .ok (i128ToBeBytes serial)

/-- Embeds `_serialize_issued_currency_amount` (amount.rs lines 130-143): the
value bytes, currency bytes and issuer bytes are concatenated, and the source
then converts the buffer to `[u8; 8]` with `try_into().expect(..)`, which
panics unless the buffer holds exactly 8 bytes. -/
def serializeICAmount (ic : IssuedCurrencyM) : RustRes RangeErr (List Nat) :=
  match serializeICValue ic.value with
  | .error e => .fail e
  | .ok amountBytes =>
    let bytes := amountBytes ++ ic.currency ++ ic.issuer
    if bytes.length = 8 then .ok bytes else .panicked

/-- Currency-code bytes of the golden OfferCreate fixture's TakerGets
("ILS": twelve zero bytes, the ASCII code, five zero bytes). -/
def ilsCurrencyBytes : List Nat :=
  List.replicate 12 0 ++ [0x49, 0x4C, 0x53] ++ List.replicate 5 0

/-- Issuer account-id bytes of the golden OfferCreate fixture's TakerGets
(account rNPRNzBB92BVpAhhZr4iXDTveCgV5Pofm9). -/
def ilsIssuerBytes : List Nat :=
  [0x92, 0xD7, 0x05, 0x96, 0x89, 0x36, 0xC4, 0x19, 0xCE, 0x61,
   0x4B, 0xF2, 0x64, 0xB5, 0xEE, 0xB1, 0xCE, 0xA4, 0x7F, 0xF4]

/-- Example 20-byte currency code used for concrete runs. -/
def exCurrencyBytes : List Nat := List.replicate 20 2

/-- Example 20-byte issuer account id used for concrete runs. -/
def exIssuerBytes : List Nat := List.replicate 20 3

/-! Keypair engine (core/keypairs/mod.rs). -/

/-- The two signing algorithms of `constants::CryptoAlgorithm`. -/
inductive CryptoAlgorithm where
  | ED25519
  | SECP256K1
deriving DecidableEq, Repr

/-- The two `CryptoImplementation` structs of keypairs/algorithms.rs. -/
inductive CryptoImpl where
  | ed25519
  | secp256k1
deriving DecidableEq, Repr

/-- Embeds `_get_algorithm_engine` (keypairs/mod.rs lines 23-28).  Note that in
the source both match arms return the `Ed25519` implementation; the
`Secp256k1` implementation of algorithms.rs is never selected. -/
def getAlgorithmEngine : CryptoAlgorithm → CryptoImpl
  | .ED25519 => .ed25519
  | .SECP256K1 => .ed25519

/-- Embeds `_get_algorithm_engine_from_key` (keypairs/mod.rs lines 32-37): a
key whose first two characters are the Ed25519 marker selects the ED25519
algorithm, every other key selects SECP256K1.  (`ED25519_PREFIX` lives in
keypairs/utils.rs, not under src/; its value is the Ed25519 textual marker
"ED".  The byte-slice panic of the source on keys shorter than two bytes is
not modelled; the claims concern well-formed keys.) -/
def getAlgorithmEngineFromKey (key : String) : CryptoImpl :=
  if key.take 2 = "ED" then getAlgorithmEngine CryptoAlgorithm.ED25519
  else getAlgorithmEngine CryptoAlgorithm.SECP256K1

/-- Embeds the dispatch of the top-level `sign` (keypairs/mod.rs lines 91-96):
the engine is chosen from the private key string alone and its sign method is
applied.  The two engines' signing functions are parameters, since the curve
libraries are external collaborators. -/
def signDispatch {s : Type} (edSign secpSign : List Nat → String → s)
    (message : List Nat) (privateKey : String) : s :=
  match getAlgorithmEngineFromKey privateKey with
  | .ed25519 => edSign message privateKey
  | .secp256k1 => secpSign message privateKey

/-- Embeds the dispatch of the top-level `is_valid_message` (keypairs/mod.rs
lines 99-106), with the two engines' verify functions as parameters. -/
def isValidMessageDispatch {s : Type}
    (edVerify secpVerify : List Nat → List Nat → String → s)
    (message signature : List Nat) (publicKey : String) : s :=
  match getAlgorithmEngineFromKey publicKey with
  | .ed25519 => edVerify message signature publicKey
  | .secp256k1 => secpVerify message signature publicKey

/-- Example secp256k1-style compressed public/private key string (does not
start with the Ed25519 marker). -/
def secpStyleKey : String := "02F9C8A1D3"

/-- Embeds `generate_seed` (keypairs/mod.rs lines 41-62).  The `encode_seed`
function of the address codec (not under src/) is a pure function parameter,
and the bytes the RNG would produce are an explicit argument: the source
overwrites `random_bytes` with the supplied entropy when it is present and
fills it from the RNG only when `entropy` is `None`. -/
def generateSeed {s : Type} (encSeed : List Nat → CryptoAlgorithm → s)
    (entropy : Option (List Nat)) (algorithm : Option CryptoAlgorithm)
    (rngBytes : List Nat) : s :=
  let algo : CryptoAlgorithm :=
    match algorithm with
    | some value => value
    | none => CryptoAlgorithm.ED25519
  let randomBytes : List Nat :=
    match entropy with
    | some value => value
    | none => rngBytes
  encSeed randomBytes algo

/-! Canonical object serializer (core/types/mod.rs, STObject::try_from_value).

The Field Metadata Registry (core/binarycodec/definitions) and the address
codec are not under src/: the registry is passed as a function parameter whose
instances carry the metadata named in the spec (section 3), and the x-address
predicates/handlers are parameters as well.  Everything else mirrors
try_from_value line by line. -/

/-- Header of a field: type code and field code (definitions module, spec
section 3).  The source stores them as `i16`; registry codes are positive, so
they are modelled as `Nat`. -/
structure FieldHeader where
  typeCode : Nat
  fieldCode : Nat
deriving DecidableEq, Repr

/-- Modelled from the spec: `FieldInstance` of core/binarycodec/definitions is
not under src/.  It carries the per-field metadata of spec section 3: name,
header, associated semantic type name, sort ordinal and the
variable-length/serialized/signing flags. -/
structure FieldInstance where
  nth : Nat
  isVLEncoded : Bool
  isSerialized : Bool
  isSigning : Bool
  name : String
  header : FieldHeader
  associatedType : String
  ordinal : Nat
deriving DecidableEq, Repr

/-- Structured JSON-like value (`serde_json::Value` restricted to the variants
try_from_value distinguishes: strings, unsigned numbers, objects, arrays). -/
inductive JValue where
  | str (s : String)
  | num (n : Nat)
  | obj (entries : List (String × JValue))
  | arr (elems : List JValue)

/-- Error variants of `XRPLSerializeMapException` and the adjacent anyhow
errors raised by try_from_value (core/types/mod.rs and exceptions). -/
inductive SerErr where
  | expectedObject
  | unknownTransactionType (name : String)
  | unknownTransactionResult (name : String)
  | unknownLedgerEntryType (name : String)
  | accountMismatchingTags
  | destinationMismatchingTags
  | disallowedTag (field : String)
  | fieldMissing (name : String)
  | typeErr (name : String)
deriving DecidableEq, Repr

/-- Constant `SOURCE_TAG` of core/types/mod.rs. -/
def SOURCE_TAG : String := "SourceTag"

/-- Constant `DESTINATION_TAG` of core/types/mod.rs. -/
def DESTINATION_TAG : String := "DestinationTag"

/-- Constant `UNL_MODIFY_TX_TYPE` of core/types/mod.rs: the hex form of the
UNLModify pseudo-transaction type code 0x0066. -/
def UNL_MODIFY_TX_TYPE : String := "0066"

/-- Constant `ST_OBJECT` of core/types/mod.rs. -/
def ST_OBJECT : String := "STObject"

/-- The end-of-object marker byte appended after nested object fields. -/
def OBJECT_END_MARKER_BYTE : Nat := 0xE1

mutual

/-- Structural equality of JSON-like values (the `!=` comparison of
`serde_json::Value` used by the tag-conflict checks). -/
def jvalEq : JValue → JValue → Bool
  | .str a, .str b => a = b
  | .num a, .num b => a = b
  | .obj a, .obj b => jvalObjEq a b
  | .arr a, .arr b => jvalListEq a b
  | _, _ => false

/-- Structural equality of JSON-like objects, entry by entry. -/
def jvalObjEq : List (String × JValue) → List (String × JValue) → Bool
  | [], [] => true
  | (k1, v1) :: r1, (k2, v2) :: r2 => k1 = k2 && jvalEq v1 v2 && jvalObjEq r1 r2
  | _, _ => false

/-- Structural equality of JSON-like arrays, element by element. -/
def jvalListEq : List JValue → List JValue → Bool
  | [], [] => true
  | a :: r1, b :: r2 => jvalEq a b && jvalListEq r1 r2
  | _, _ => false

end

/-- Lookup in a name-to-value mapping modelled as an association list. -/
def mapGet : List (String × JValue) → String → Option JValue
  | [], _ => none
  | (k1, v1) :: rest, k => if k1 = k then some v1 else mapGet rest k

/-- Key-membership test of the mapping (`contains_key`). -/
def mapContains (m : List (String × JValue)) (k : String) : Bool :=
  (mapGet m k).isSome

/-- Insert into the mapping, replacing an existing entry for the key and
appending otherwise.  (The source's `serde_json::Map` is a search tree whose
iteration order is sorted by key; insertion order of this model only
influences stable-sort tie-breaking between equal ordinals, which the claims
do not touch.) -/
def mapInsert : List (String × JValue) → String → JValue → List (String × JValue)
  | [], k, v => [(k, v)]
  | (k1, v1) :: rest, k, v =>
    if k1 = k then (k, v) :: rest else (k1, v1) :: mapInsert rest k v

/-- Merge a handled-x-address mapping into the accumulator (`Map::extend`). -/
def extendMap (acc handled : List (String × JValue)) : List (String × JValue) :=
  handled.foldl (fun a kv => mapInsert a kv.1 kv.2) acc

/-- True when both the handled x-address mapping and the original object carry
the given tag and their values differ (the mismatching-tags conditions of
try_from_value). -/
def tagConflict (handled object : List (String × JValue)) (tag : String) : Bool :=
  match mapGet handled tag, mapGet object tag with
  | some ht, some ot => !(jvalEq ht ot)
  | _, _ => false

/-- True when the value is a string the x-address predicate accepts. -/
def jvalIsX (isX : String → Bool) : JValue → Bool
  | .str s => isX s
  | _ => false

/-- Embeds one iteration of the first loop of try_from_value (core/types/mod.rs
lines 243-318), producing the updated `value_xaddress_handled` mapping: valid
x-address strings are decomposed and merged (after the tag-conflict checks),
the three type-name fields are translated to their registry codes (note the
source resolves `LedgerEntryType` with `get_transaction_type_code` as well),
and every other entry is inserted unchanged. -/
def processEntry (txType txResult : String → Option Nat) (isX : String → Bool)
    (handleX : String → String → Except SerErr (List (String × JValue)))
    (object acc : List (String × JValue)) (field : String) (value : JValue) :
    Except SerErr (List (String × JValue)) :=
  match value with
  | .str s =>
    if isX s then
      match handleX field s with
      | .error e => .error e
      | .ok handled =>
        if tagConflict handled object SOURCE_TAG then .error .accountMismatchingTags
        else if tagConflict handled object DESTINATION_TAG then
          .error .destinationMismatchingTags
        else .ok (extendMap acc handled)
    else if field = "TransactionType" then
      match txType s with
      | some code => .ok (mapInsert acc field (.num code))
      | none => .error (.unknownTransactionType s)
    else if field = "TransactionResult" then
      match txResult s with
      | some code => .ok (mapInsert acc field (.num code))
      | none => .error (.unknownTransactionResult s)
    else if field = "LedgerEntryType" then
      match txType s with
      | some code => .ok (mapInsert acc field (.num code))
      | none => .error (.unknownLedgerEntryType s)
    else .ok (mapInsert acc field (.str s))
  | _ => .ok (mapInsert acc field value)

/-- Folds `processEntry` over the object's entries, building
`value_xaddress_handled`. -/
def processEntries (txType txResult : String → Option Nat) (isX : String → Bool)
    (handleX : String → String → Except SerErr (List (String × JValue)))
    (object : List (String × JValue)) :
    List (String × JValue) → List (String × JValue) →
    Except SerErr (List (String × JValue))
  | [], acc => .ok acc
  | (field, value) :: rest, acc =>
    match processEntry txType txResult isX handleX object acc field value with
    | .error e => .error e
    | .ok acc2 => processEntries txType txResult isX handleX object rest acc2

/-- Embeds the `sorted_keys` construction of try_from_value (core/types/mod.rs
lines 320-330): walk the processed mapping, resolve each name through the
registry, and keep the instance when the mapping contains the instance's name
and the instance is marked serialized. -/
def selectFields (registry : String → Option FieldInstance)
    (m : List (String × JValue)) : List FieldInstance :=
  m.filterMap fun kv =>
    match registry kv.1 with
    | some fi =>
      if mapContains m fi.name && fi.isSerialized then some fi else none
    | none => none

/-- Canonical field order: ascending ordinal (`sort_by_key(|k| k.ordinal)`). -/
def fiLe (a b : FieldInstance) : Prop := a.ordinal ≤ b.ordinal

instance fiLeDecidable : DecidableRel fiLe := fun a b => Nat.decLe a.ordinal b.ordinal

instance fiLeTotal : IsTotal FieldInstance fiLe :=
  ⟨fun a b => Nat.le_total a.ordinal b.ordinal⟩

instance fiLeTrans : IsTrans FieldInstance fiLe :=
  ⟨fun _ _ _ h1 h2 => Nat.le_trans h1 h2⟩

/-- Modelled from the spec: `FieldHeader::to_bytes` of the definitions module
is not under src/.  Spec section 3: both codes below 16 pack into one byte
(high nibble type, low nibble field); a code of 16 or more moves to a full
extra byte after the remaining nonzero nibble, and when both overflow the
first byte is zero.  This is the inverse of `read_field_header`
(binary_wrappers.rs lines 562-592). -/
def fieldHeaderBytes (h : FieldHeader) : List Nat :=
  if h.typeCode < 16 then
    if h.fieldCode < 16 then [h.typeCode * 16 + h.fieldCode]
    else [h.typeCode * 16, h.fieldCode]
  else
    if h.fieldCode < 16 then [h.fieldCode, h.typeCode]
    else [0, h.typeCode, h.fieldCode]

/-- Embeds `BinarySerializer::write_length_encoded` (binary_wrappers.rs lines
434-447): the length prefix of the value (or of the empty buffer when
`encodeVal` is false) followed by the buffered bytes.  `none` models the
source's `.unwrap()` panic when the length exceeds the encodable maximum. -/
def writeLengthEncoded (value : List Nat) (encodeVal : Bool) : Option (List Nat) :=
  let byteObject : List Nat := if encodeVal then value else []
  match encodeVariableLengthPfx byteObject.length with
  | .ok pfx => some (pfx ++ byteObject)
  | .error _ => none

/-- Embeds `BinarySerializer::write_field_and_value` (binary_wrappers.rs lines
449-464): header bytes, then either the length-encoded value (suppressed when
the UNLModify workaround flag is set) or the raw value bytes. -/
def writeFieldAndValue (field : FieldInstance) (value : List Nat)
    (isUnlModifyWorkaround : Bool) : Option (List Nat) :=
  if field.isVLEncoded then
    (writeLengthEncoded value (!isUnlModifyWorkaround)).map
      (fieldHeaderBytes field.header ++ ·)
  else some (fieldHeaderBytes field.header ++ value)

/-- Uppercase hex digit of a nibble. -/
def hexDigitU (n : Nat) : Char :=
  if n < 10 then Char.ofNat (48 + n) else Char.ofNat (55 + n)

/-- Uppercase hex characters of one byte. -/
def hexByteU (b : Nat) : List Char := [hexDigitU (b / 16), hexDigitU (b % 16)]

/-- Uppercase hex string of a byte buffer (`SerializedType::to_string`,
core/types/mod.rs lines 484-489). -/
def hexEncodeUpper (bs : List Nat) : String :=
  String.mk (bs.foldr (fun b acc => hexByteU b ++ acc) [])

/-- Embeds the write loop of try_from_value (core/types/mod.rs lines 337-362)
over the sorted field instances, threading the `is_unl_modify` flag.  Each
field's serialized chunk is recorded next to its instance; the final buffer is
their concatenation.  The source computes
`_is_unl_modify_workaround = (name == "Account") && is_unl_modify` but leaves
it unused and invokes `write_field_and_value` without passing it on, so the
workaround flag handed to the serializer is always false here. -/
def writeFields (encodeValue : String → JValue → Except SerErr (List Nat))
    (m : List (String × JValue)) :
    List FieldInstance → Bool → RustRes SerErr (List (FieldInstance × List Nat))
  | [], _ => .ok []
  | fi :: rest, isUnl =>
    match mapGet m fi.name with
    | none => .fail (.fieldMissing fi.name)
    | some v =>
      match encodeValue fi.associatedType v with
      | .error e => .fail e
      | .ok bytes =>
        let isUnl2 : Bool :=
          if fi.name = "TransactionType" ∧ hexEncodeUpper bytes = UNL_MODIFY_TX_TYPE
          then true else isUnl
        match writeFieldAndValue fi bytes false with
        | none => .panicked
        | some chunk =>
          let chunk2 := chunk ++
            (if fi.associatedType = ST_OBJECT then [OBJECT_END_MARKER_BYTE] else [])
          match writeFields encodeValue m rest isUnl2 with
          | .ok out => .ok ((fi, chunk2) :: out)
          | .fail e => .fail e
          | .panicked => .panicked

/-- Embeds `STObject::try_from_value` (core/types/mod.rs lines 236-365) for an
object input, with the registry, the type-code tables, the x-address
predicate/handler and the typed field codecs (`XRPLTypes::from_value`) as
parameters.  Returns the per-field chunks written to the serializer, in
order. -/
def tryFromValue (registry : String → Option FieldInstance)
    (txType txResult : String → Option Nat) (isX : String → Bool)
    (handleX : String → String → Except SerErr (List (String × JValue)))
    (encodeValue : String → JValue → Except SerErr (List Nat))
    (object : List (String × JValue)) (signingOnly : Bool) :
    RustRes SerErr (List (FieldInstance × List Nat)) :=
  match processEntries txType txResult isX handleX object object [] with
  | .error e => .fail e
  | .ok m =>
    let sortedKeys := List.insertionSort fiLe (selectFields registry m)
    let sortedKeys2 := if signingOnly then sortedKeys.filter (·.isSigning) else sortedKeys
    writeFields encodeValue m sortedKeys2 false

/-- Specification-side description of the written field set: the input keys
that the registry resolves to a serialized field instance, restricted to the
signing subset when serializing for signing. -/
def selectedOf (registry : String → Option FieldInstance) (signingOnly : Bool)
    (keys : List String) : List FieldInstance :=
  keys.filterMap fun k =>
    match registry k with
    | some fi =>
      if fi.isSerialized && (!signingOnly || fi.isSigning) then some fi else none
    | none => none

/-! Structural lemmas about the canonical object serializer, leading to the
field-selection and ordering theorem. -/

/-- A key is found by `mapGet` exactly when it occurs among the mapping's
keys. -/
theorem mapGet_isSome_iff (m : List (String × JValue)) (k : String) :
    (mapGet m k).isSome = true ↔ k ∈ m.map Prod.fst := by
  induction m with
  | nil => simp [mapGet]
  | cons kv rest ih =>
    obtain ⟨k1, v1⟩ := kv
    by_cases h : k1 = k
    · simp [mapGet, h]
    · have h2 : ¬k = k1 := fun hh => h hh.symm
      simp [mapGet, h, h2, ih]

/-- Inserting a fresh key appends the entry at the end of the mapping. -/
theorem mapInsert_of_notMem (m : List (String × JValue)) (k : String) (v : JValue)
    (h : k ∉ m.map Prod.fst) : mapInsert m k v = m ++ [(k, v)] := by
  induction m with
  | nil => rfl
  | cons kv rest ih =>
    obtain ⟨k1, v1⟩ := kv
    simp only [List.map_cons, List.mem_cons, not_or] at h
    have h1 : ¬k1 = k := fun hh => h.1 hh.symm
    simp [mapInsert, h1, ih h.2]

/-- Processing one non-x-address entry with a fresh key adds exactly that key
at the end of the accumulated mapping. -/
theorem processEntry_keys (txType txResult : String → Option Nat)
    (isX : String → Bool)
    (handleX : String → String → Except SerErr (List (String × JValue)))
    (object acc : List (String × JValue)) (field : String) (value : JValue)
    (acc2 : List (String × JValue))
    (hx : jvalIsX isX value = false) (hnm : field ∉ acc.map Prod.fst)
    (h : processEntry txType txResult isX handleX object acc field value = .ok acc2) :
    acc2.map Prod.fst = acc.map Prod.fst ++ [field] := by
  have key : ∀ X : JValue,
      (Except.ok (mapInsert acc field X) : Except SerErr (List (String × JValue)))
        = Except.ok acc2 →
      acc2.map Prod.fst = acc.map Prod.fst ++ [field] := by
    intro X hX
    cases hX
    rw [mapInsert_of_notMem acc field X hnm]
    simp
  cases value with
  | str s =>
    have hx2 : isX s = false := by simpa [jvalIsX] using hx
    simp only [processEntry] at h
    repeat' split at h
    all_goals first
      | exact Except.noConfusion h
      | exact key _ h
      | simp_all
  | num n =>
    simp only [processEntry] at h
    exact key _ h
  | obj entries =>
    simp only [processEntry] at h
    exact key _ h
  | arr elems =>
    simp only [processEntry] at h
    exact key _ h

/-- Processing a list of non-x-address entries with pairwise-fresh keys
appends exactly those keys, in order, to the accumulated mapping. -/
theorem processEntries_keys (txType txResult : String → Option Nat)
    (isX : String → Bool)
    (handleX : String → String → Except SerErr (List (String × JValue)))
    (object : List (String × JValue)) :
    ∀ (todo acc m : List (String × JValue)),
    (∀ kv ∈ todo, jvalIsX isX kv.2 = false) →
    (acc.map Prod.fst ++ todo.map Prod.fst).Nodup →
    processEntries txType txResult isX handleX object todo acc = .ok m →
    m.map Prod.fst = acc.map Prod.fst ++ todo.map Prod.fst := by
  intro todo
  induction todo with
  | nil =>
    intro acc m _ _ h
    cases h
    simp
  | cons kv rest ih =>
    intro acc m hnox hnd h
    obtain ⟨field, value⟩ := kv
    simp only [processEntries] at h
    cases hpe : processEntry txType txResult isX handleX object acc field value with
    | error e => rw [hpe] at h; exact Except.noConfusion h
    | ok acc2 =>
      rw [hpe] at h
      have hfresh : field ∉ acc.map Prod.fst := by
        intro hmem
        have := (List.nodup_append.mp hnd).2.2
        exact this hmem (by simp)
      have hkeys : acc2.map Prod.fst = acc.map Prod.fst ++ [field] :=
        processEntry_keys txType txResult isX handleX object acc field value acc2
          (hnox (field, value) (by simp)) hfresh hpe
      have hnd2 : (acc2.map Prod.fst ++ rest.map Prod.fst).Nodup := by
        rw [hkeys]
        simpa [List.append_assoc] using hnd
      have := ih acc2 m (fun kv hkv => hnox kv (List.mem_cons_of_mem _ hkv)) hnd2 h
      rw [this, hkeys]
      simp

/-- The chunks returned by the write loop are tagged with exactly the field
instances it was given, in order. -/
theorem writeFields_fst (encodeValue : String → JValue → Except SerErr (List Nat))
    (m : List (String × JValue)) :
    ∀ (fis : List FieldInstance) (isUnl : Bool) (out : List (FieldInstance × List Nat)),
    writeFields encodeValue m fis isUnl = .ok out → out.map Prod.fst = fis := by
  intro fis
  induction fis with
  | nil =>
    intro isUnl out h
    cases h
    rfl
  | cons fi rest ih =>
    intro isUnl out h
    simp only [writeFields] at h
    cases h1 : mapGet m fi.name with
    | none => simp [h1] at h
    | some v =>
      simp only [h1] at h
      cases h2 : encodeValue fi.associatedType v with
      | error e => simp [h2] at h
      | ok bytes =>
        simp only [h2] at h
        cases h3 : writeFieldAndValue fi bytes false with
        | none => simp [h3] at h
        | some chunk =>
          simp only [h3] at h
          cases h4 : writeFields encodeValue m rest
              (if fi.name = "TransactionType" ∧ hexEncodeUpper bytes = UNL_MODIFY_TX_TYPE
               then true else isUnl) with
          | ok out2 =>
            rw [h4] at h
            injection h with h5
            subst h5
            simp [ih _ _ h4]
          | fail e =>
            rw [h4] at h
            exact RustRes.noConfusion h
          | panicked =>
            rw [h4] at h
            exact RustRes.noConfusion h

/-- Under a registry whose instances carry their own lookup key as name, the
`sorted_keys` selection over the processed mapping is the serialized subset of
the mapping's keys. -/
theorem selectFields_eq (registry : String → Option FieldInstance)
    (hreg : ∀ k fi, registry k = some fi → fi.name = k)
    (m : List (String × JValue)) :
    selectFields registry m = selectedOf registry false (m.map Prod.fst) := by
  unfold selectFields selectedOf
  rw [List.filterMap_map]
  apply List.filterMap_congr
  intro kv hkv
  simp only [Function.comp]
  cases hr : registry kv.1 with
  | none => rfl
  | some fi =>
    have hname : fi.name = kv.1 := hreg kv.1 fi hr
    have hmem : kv.1 ∈ m.map Prod.fst := List.mem_map_of_mem Prod.fst hkv
    have hcont : mapContains m fi.name = true := by
      rw [hname]
      unfold mapContains
      exact (mapGet_isSome_iff m kv.1).mpr hmem
    simp [hcont]

/-- Restricting the serialized selection to signing fields afterwards is the
same as selecting with the signing restriction. -/
theorem selectedOf_signing (registry : String → Option FieldInstance)
    (keys : List String) :
    (selectedOf registry false keys).filter (fun fi => fi.isSigning)
      = selectedOf registry true keys := by
  unfold selectedOf
  rw [List.filter_filterMap]
  apply List.filterMap_congr
  intro k _
  cases hr : registry k with
  | none => rfl
  | some fi =>
    cases hs : fi.isSerialized <;> cases hg : fi.isSigning <;>
      simp [Option.filter, hs, hg]

/-- C5: a successful run of STObject::try_from_value writes exactly the fields
that are present in the mapping, known to the registry and marked serialized
(restricted to the signing subset when serializing for signing), and the
written sequence is ascending in canonical ordinal.  Stated for inputs free of
x-addresses (their decomposition adds the derived tag field) and for a
registry whose instances carry their lookup key as name, as the real registry
does. -/
theorem stobject_writes_selected_fields_sorted
    (registry : String → Option FieldInstance)
    (txType txResult : String → Option Nat) (isX : String → Bool)
    (handleX : String → String → Except SerErr (List (String × JValue)))
    (encodeValue : String → JValue → Except SerErr (List Nat))
    (object : List (String × JValue)) (signingOnly : Bool)
    (out : List (FieldInstance × List Nat))
    (hreg : ∀ k fi, registry k = some fi → fi.name = k)
    (hnd : (object.map Prod.fst).Nodup)
    (hnox : ∀ kv ∈ object, jvalIsX isX kv.2 = false)
    (hok : tryFromValue registry txType txResult isX handleX encodeValue object
        signingOnly = .ok out) :
    (out.map Prod.fst).Perm
        (selectedOf registry signingOnly (object.map Prod.fst))
    ∧ List.Sorted (· ≤ ·) (out.map fun p => p.1.ordinal) := by
  unfold tryFromValue at hok
  cases hpe : processEntries txType txResult isX handleX object object [] with
  | error e => rw [hpe] at hok; exact RustRes.noConfusion hok
  | ok m =>
    rw [hpe] at hok
    have hkeys : m.map Prod.fst = object.map Prod.fst := by
      have := processEntries_keys txType txResult isX handleX object object [] m
        hnox (by simpa using hnd) hpe
      simpa using this
    have hsel : selectFields registry m
        = selectedOf registry false (object.map Prod.fst) := by
      rw [selectFields_eq registry hreg m, hkeys]
    have hordmap : ∀ L : List (FieldInstance × List Nat),
        (L.map fun p => p.1.ordinal)
          = (L.map Prod.fst).map (fun fi => fi.ordinal) := by
      intro L
      simp [List.map_map]
    cases signingOnly with
    | false =>
      have hw : out.map Prod.fst
          = List.insertionSort fiLe (selectFields registry m) :=
        writeFields_fst encodeValue m _ false out hok
      constructor
      · rw [hw, ← hsel]
        exact List.perm_insertionSort fiLe (selectFields registry m)
      · rw [hordmap out, hw]
        have hp : List.Pairwise fiLe
            (List.insertionSort fiLe (selectFields registry m)) :=
          List.sorted_insertionSort fiLe (selectFields registry m)
        exact hp.map (fun fi : FieldInstance => fi.ordinal) (fun a b hab => hab)
    | true =>
      have hw : out.map Prod.fst
          = (List.insertionSort fiLe (selectFields registry m)).filter
              (fun fi => fi.isSigning) :=
        writeFields_fst encodeValue m _ false out hok
      constructor
      · rw [hw, ← selectedOf_signing registry (object.map Prod.fst), ← hsel]
        exact List.Perm.filter (fun fi => fi.isSigning)
          (List.perm_insertionSort fiLe (selectFields registry m))
      · rw [hordmap out, hw]
        have hp : List.Pairwise fiLe
            ((List.insertionSort fiLe (selectFields registry m)).filter
              (fun fi : FieldInstance => fi.isSigning)) :=
          List.Pairwise.filter (fun fi : FieldInstance => fi.isSigning)
            (List.sorted_insertionSort fiLe (selectFields registry m))
        exact hp.map (fun fi : FieldInstance => fi.ordinal) (fun a b hab => hab)

/-! Concrete registry and codec fixtures for the canonical-object scenarios.
The metadata values (headers, ordinals, flags) follow the protocol's published
field definitions for TransactionType (UInt16 1/2), Account (AccountID 8/1,
variable-length encoded) and hash (Hash256 5/1, not serialized). -/

/-- Registry instance of the TransactionType field. -/
def ttFi : FieldInstance :=
  { nth := 2, isVLEncoded := false, isSerialized := true, isSigning := true,
    name := "TransactionType", header := ⟨1, 2⟩, associatedType := "UInt16",
    ordinal := 0x10002 }

/-- Registry instance of the Account field. -/
def accFi : FieldInstance :=
  { nth := 1, isVLEncoded := true, isSerialized := true, isSigning := true,
    name := "Account", header := ⟨8, 1⟩, associatedType := "AccountID",
    ordinal := 0x80001 }

/-- Registry instance of the hash field, which is not serialized. -/
def hashFi : FieldInstance :=
  { nth := 1, isVLEncoded := false, isSerialized := false, isSigning := false,
    name := "hash", header := ⟨5, 1⟩, associatedType := "Hash256",
    ordinal := 0x50001 }

/-- Example registry fragment covering the fields of the concrete scenarios. -/
def registryEx (k : String) : Option FieldInstance :=
  if k = "TransactionType" then some ttFi
  else if k = "Account" then some accFi
  else if k = "hash" then some hashFi
  else none

/-- Example transaction-type table: the UNLModify pseudo-transaction code
0x0066 and the Payment code 0. -/
def txTypeEx (k : String) : Option Nat :=
  if k = "UNLModify" then some 0x66
  else if k = "Payment" then some 0
  else none

/-- Example transaction-result table (empty). -/
def txResultEx (_k : String) : Option Nat := none

/-- X-address predicate rejecting every string (classic addresses only). -/
def noXAddr (_s : String) : Bool := false

/-- X-address handler for runs that contain no x-address (never invoked). -/
def handleXEx (field _addr : String) : Except SerErr (List (String × JValue)) :=
  .error (.disallowedTag field)

/-- Example 20-byte account id produced by the AccountID codec. -/
def accountBytesEx : List Nat := List.replicate 20 0xAA

/-- Example typed-codec dispatch for the fields of the concrete scenarios:
UInt16 values become two big-endian bytes, AccountID values the 20 account-id
bytes. -/
def encodeValueEx (t : String) (v : JValue) : Except SerErr (List Nat) :=
  if t = "UInt16" then
    match v with
    | .num n => .ok [n / 256 % 256, n % 256]
    | _ => .error (.typeErr t)
  else if t = "AccountID" then .ok accountBytesEx
  else .error (.typeErr t)

/-- UNLModify pseudo-transaction object: an Account and the UNLModify
transaction type. -/
def unlObjectEx : List (String × JValue) :=
  [(r"Account", JValue.str (r"rVALIDATORADDRESSXXXXXXXXXXXXXXXXX")),
   (r"TransactionType", JValue.str (r"UNLModify"))]

/-- Payment object with one unknown field (Memo) and one known-but-not-
serialized field (hash). -/
def objectEx : List (String × JValue) :=
  [(r"Account", JValue.str (r"rEXAMPLEADDRESSXXXXXXXXXXXXXXXXXXX")),
   (r"Memo", JValue.str (r"note")),
   (r"TransactionType", JValue.str (r"Payment")),
   (r"hash", JValue.str (r"F00"))]

/-- The chunks `tryFromValue` writes for `objectEx`: the TransactionType
field, then the Account field. -/
def outEx : List (FieldInstance × List Nat) :=
  [(ttFi, [0x12, 0x00, 0x00]), (accFi, [0x81, 0x14] ++ accountBytesEx)]

/-- Companion of `stobject_writes_selected_fields_sorted` at a concrete
registry, object and output: the Memo field (unknown) and the hash field (not
serialized) are dropped, and the written fields are ordinal-sorted. -/
theorem stobject_fields_witness :
    (outEx.map Prod.fst).Perm
        (selectedOf registryEx false (objectEx.map Prod.fst))
    ∧ List.Sorted (· ≤ ·) (outEx.map fun p => p.1.ordinal) :=
  stobject_writes_selected_fields_sorted registryEx txTypeEx txResultEx noXAddr
    handleXEx encodeValueEx objectEx false outEx
    (fun k fi h => by
      simp only [registryEx] at h
      repeat' split at h
      all_goals first
        | exact Option.noConfusion h
        | (cases h; simp_all [ttFi, accFi, hashFi]))
    (by decide) (by decide) (by decide)

/-! Claim theorems for the parser, length-prefix and amount components. -/

/-- C1: encoding the golden OfferCreate fixture cannot yield the golden hex
string.  Serializing its TakerGets value "1694.768" (decimal mantissa 1694768,
scale 3) drives the `u64` exponent of `_serialize_issued_currency_value` below
zero, where it wraps to `2 ^ 64 - 6`, so the function returns
`UnexpectedICAmountOverflow` and `STObject::try_from_value` propagates the
error instead of producing the fixture's golden encoding. -/
theorem golden_offercreate_takergets_value_overflows :
    serializeICValue ⟨1694768, 3⟩ = .error (.icOverflow 80 (2 ^ 64 - 6)) ∧
    serializeICAmount ⟨⟨1694768, 3⟩, ilsCurrencyBytes, ilsIssuerBytes⟩
      = .fail (.icOverflow 80 (2 ^ 64 - 6)) := by decide

/-- C2: serializing a valid nonzero issued-currency amount does not produce
48 bytes.  The value word is the sixteen big-endian bytes of an `i128`
(8 zero bytes before the 64-bit word), the concatenated buffer is 56 bytes,
and `_serialize_issued_currency_amount`'s `try_into::<[u8; 8]>().expect(..)`
then panics.  Shown for the valid nonzero value `1e-15` (mantissa 1,
scale 15). -/
theorem issued_currency_amount_serialization_panics :
    (serializeICValue ⟨1, 15⟩).map List.length = .ok 16 ∧
    (serializeICValue ⟨1, 15⟩).map
        (fun bs => (bs ++ exCurrencyBytes ++ exIssuerBytes).length) = .ok 56 ∧
    serializeICAmount ⟨⟨1, 15⟩, exCurrencyBytes, exIssuerBytes⟩ = .panicked := by
  decide

/-- A 48-byte buffer whose first byte has the high bit set: the wire form of
an issued-currency amount. -/
def issuedAmountBuf : List Nat := 128 :: List.replicate 47 0

/-- C3: decoding an Amount whose first byte has its high bit set does not
consume 48 bytes.  `Amount::from_parser` selects the byte count by matching on
whether `peek()` returned `Some`, so every non-empty buffer is read as an
8-byte native amount: on a 48-byte issued-currency buffer it consumes 8 bytes
and leaves 40. -/
theorem amount_decode_reads_eight_bytes_despite_high_bit :
    amountFromParser issuedAmountBuf
      = .ok ([128, 0, 0, 0, 0, 0, 0, 0], List.replicate 40 0) := by decide

/-- C4: the variable-length prefix codec has exactly the spec's boundary
behavior: length 192 encodes to the single byte [192], length 193 to [193, 0],
length 12480 to [240, 255] (the maximal two-byte form), length 12481 to the
three-byte form [241, 0, 0], length 918745 is rejected, and decoding a prefix
whose first byte is 255 fails with the range error for every tail. -/
theorem length_pfx_boundaries :
    encodeVariableLengthPfx 192 = .ok [192] ∧
    encodeVariableLengthPfx 193 = .ok [193, 0] ∧
    encodeVariableLengthPfx 12480 = .ok [240, 255] ∧
    encodeVariableLengthPfx 12481 = .ok [241, 0, 0] ∧
    encodeVariableLengthPfx 918745 = .error (.vlTooLarge 918744) ∧
    ∀ rest : List Nat, readLengthPfx (255 :: rest) = .fail (.lengthPfxRange 1 3) :=
  ⟨by decide, by decide, by decide, by decide, by decide, fun rest => rfl⟩

/-- Companion of `length_pfx_boundaries` at a concrete tail. -/
theorem length_pfx_boundaries_witness :
    readLengthPfx (255 :: [1, 2]) = .fail (.lengthPfxRange 1 3) :=
  length_pfx_boundaries.2.2.2.2.2 [1, 2]

/-- C8: `read(n)` with `n` larger than the remaining length panics instead of
returning the overflow error: the source slices `self.0[..n]` before the
bounds check inside `skip_bytes`.  `skip_bytes` itself, and in-range reads,
behave as the claim says. -/
theorem parser_read_out_of_range_panics :
    parserRead [0, 17] 3 = .panicked ∧
    skipBytes [0, 17] 3 = .error (.skipOverflow 2 3) ∧
    parserRead [0, 17, 34] 2 = .ok ([0, 17], [34]) ∧
    skipBytes [0, 17, 34] 2 = .ok [34] := by decide

/-- C9: the values "100" (mantissa 100, scale 0) and "100.00" (mantissa 10000,
scale 2) do not both serialize to identical bytes: both runs underflow the
`u64` exponent and return `UnexpectedICAmountOverflow` (with different wrapped
exponents), producing no bytes at all. -/
theorem normalization_of_100_variants_errors :
    serializeICValue ⟨100, 0⟩ = .error (.icOverflow 80 (2 ^ 64 - 13)) ∧
    serializeICValue ⟨10000, 2⟩ = .error (.icOverflow 80 (2 ^ 64 - 9)) := by
  decide

/-- C7: the top-level sign and is_valid_message do dispatch purely on the key
string's two-character marker, but every key selects the Ed25519
implementation: `_get_algorithm_engine` returns `Ed25519` for the SECP256K1
algorithm as well, so a secp256k1-style key (not starting with the Ed25519
marker) is handled by the Ed25519 engine. -/
theorem secp_keys_dispatch_to_ed25519_impl :
    getAlgorithmEngine CryptoAlgorithm.SECP256K1 = CryptoImpl.ed25519 ∧
    getAlgorithmEngineFromKey secpStyleKey = CryptoImpl.ed25519 ∧
    signDispatch (fun _ _ => CryptoImpl.ed25519) (fun _ _ => CryptoImpl.secp256k1)
        [1, 2] secpStyleKey = CryptoImpl.ed25519 ∧
    isValidMessageDispatch (fun _ _ _ => CryptoImpl.ed25519)
        (fun _ _ _ => CryptoImpl.secp256k1) [1] [2] secpStyleKey
      = CryptoImpl.ed25519 := by decide

/-- C6: serializing a UNLModify pseudo-transaction does not apply the
Account-field length-prefix-suppression workaround.  The write loop sets its
`is_unl_modify` flag (the TransactionType chunk's hex form is "0066") and the
source computes `_is_unl_modify_workaround` for the Account field, but never
passes it to `write_field_and_value`: the Account value is written with its
normal one-byte length prefix 0x14 followed by the 20 account-id bytes, not
with the suppressed zero-length prefix the workaround would produce. -/
theorem unl_modify_account_keeps_length_pfx :
    tryFromValue registryEx txTypeEx txResultEx noXAddr handleXEx encodeValueEx
        unlObjectEx false
      = .ok [(ttFi, [0x12, 0x00, 0x66]),
             (accFi, [0x81, 0x14] ++ accountBytesEx)] := by decide

/-- C10: `generate_seed` is deterministic whenever entropy is supplied: the
RNG bytes are ignored when `entropy` is `Some`, and an omitted algorithm
behaves exactly like an explicit ED25519. -/
theorem generate_seed_deterministic_given_entropy :
    (∀ (s : Type) (encSeed : List Nat → CryptoAlgorithm → s) (e : List Nat)
        (algorithm : Option CryptoAlgorithm) (r1 r2 : List Nat),
      generateSeed encSeed (some e) algorithm r1
        = generateSeed encSeed (some e) algorithm r2) ∧
    (∀ (s : Type) (encSeed : List Nat → CryptoAlgorithm → s)
        (entropy : Option (List Nat)) (r : List Nat),
      generateSeed encSeed entropy none r
        = generateSeed encSeed entropy (some CryptoAlgorithm.ED25519) r) :=
  ⟨fun _ _ _ _ _ _ => rfl, fun _ _ _ _ => rfl⟩

/-- Companion of `generate_seed_deterministic_given_entropy` at a concrete
entropy value and two different RNG byte draws. -/
theorem generate_seed_deterministic_witness :
    generateSeed (fun bs a => (bs, a)) (some [7, 7]) none [1, 2]
      = generateSeed (fun bs a => (bs, a)) (some [7, 7]) none [9, 9] :=
  generate_seed_deterministic_given_entropy.1 (List Nat × CryptoAlgorithm)
    (fun bs a => (bs, a)) [7, 7] none [1, 2] [9, 9]

end XRPLCodec
